import Mathlib

/-!
Shallow embedding of `src/types.rs` from the `ton-labs-block` repository:
the scalar codec protocol, the variable-length integer families
(`define_VarIntegerN!`: BigInt-backed `Grams`/`VarUInteger32` and
machine-word-backed `VarUInteger3`/`VarUInteger7`), the bounded integer
family (`define_NumberN_up32bit!`: `Number5` .. `Number32`), the `AddSub`
and `Augmentable` capabilities, `ChildCell`, and the `GenericId` trait.

Modelling conventions:
* `BigInt` is modelled as `Int`; `num::BigInt::bits()` is the bit length of
  the magnitude, i.e. `Nat.size` of the absolute value (rendered by the
  executable `bitLen`).
* machine words (`u32`, `u64`, `usize`) are modelled as `Nat` with explicit
  `% 2 ^ w` where the code performs an `as` truncation.
* a cell's bit-string is a `List Bool` (most significant bit first); child
  cell references are modelled as opaque handles (`Nat`), since no code in
  `types.rs` inspects the contents of a reference.
* builders are modelled without a capacity bound: the capacity errors of the
  external `BuilderData` collaborator are out of scope of the claims, so
  `append_bits`/`append_raw` are total here.
* fallible Rust functions returning `Result`/`BlockResult` become `Except`
  over a single error type `BlockError` that merges `ExceptionCode` and
  `BlockErrorKind` (in the source both convert into the crate's error type).
-/

namespace TonTypes

/-- Error kinds used by `types.rs`: `BlockErrorKind::InvalidArg`,
`ExceptionCode::RangeCheckError`, `ExceptionCode::IntegerOverflow`,
cursor truncation (`CellUnderflow`), and `BlockErrorKind::PrunedCellAccess`
carrying the expected type's name. -/
inductive BlockError where
  | invalidArg (msg : String)
  | rangeCheckError
  | integerOverflow
  | cellUnderflow
  | prunedCellAccess (typeName : String)
  deriving Repr, DecidableEq

/-- Value of a big-endian bit-string (most significant bit first). -/
def bitsToNat (l : List Bool) : Nat :=
  l.foldl (fun a b => 2 * a + (if b then 1 else 0)) 0

/-- The `w`-bit big-endian representation of `v % 2 ^ w`
(most significant bit first). -/
def natToBits : Nat → Nat → List Bool
  | 0, _ => []
  | w + 1, v => natToBits w (v / 2) ++ [v % 2 == 1]

/-- Value of a big-endian byte sequence, as produced by
`BigInt::from_bytes_be(Sign::Plus, bytes)`. -/
def fromBytesBE (bs : List Nat) : Nat :=
  bs.foldl (fun a b => 256 * a + b) 0

/-- Helper for an executable bit length: `bitLenAux fuel n` is the number of
binary digits of `n` provided `fuel ≥ n`; the structural recursion on the
fuel keeps it kernel-reducible (proved equal to `Nat.size` below). -/
def bitLenAux : Nat → Nat → Nat
  | 0, _ => 0
  | fuel + 1, n => if n = 0 then 0 else bitLenAux fuel (n / 2) + 1

/-- Number of binary digits of `n` (0 for 0): an executable form of
`Nat.size`. -/
def bitLen (n : Nat) : Nat := bitLenAux n n

/-- Floor of the base-2 logarithm (executable form of `Nat.log2`; 0 at 0). -/
def log2Floor (n : Nat) : Nat := bitLen n - 1

/-- Ceiling of the base-2 logarithm of `n`, for `n ≥ 1` (executable form of
`Nat.clog 2`). -/
def ceilLog2 (n : Nat) : Nat := bitLen (n - 1)

/-- Cell kind discriminator exposed by the external cell collaborator
(`CellType`): ordinary cells versus pruned-branch proof stubs. -/
inductive CellType where
  | ordinary
  | prunedBranch
  deriving Repr, DecidableEq

/-- A cell (`CellData`, external collaborator): a kind tag, a bounded
bit-string, and child references (opaque handles here). -/
structure CellData where
  cellType : CellType := .ordinary
  data : List Bool := []
  refs : List Nat := []
  deriving Repr, DecidableEq

/-- A builder (`BuilderData`, external collaborator): accumulated bits and
references. -/
structure BuilderData where
  data : List Bool := []
  refs : List Nat := []
  deriving Repr, DecidableEq

/-- Rust `BuilderData::default()`: the empty builder. -/
def BuilderData.default : BuilderData := {}

/-- Rust `BuilderData::is_empty()`: no bits and no references accumulated. -/
def BuilderData.is_empty (b : BuilderData) : Bool :=
  b.data.isEmpty && b.refs.isEmpty

/-- Rust `BuilderData::append_bits(value, width)`: append the `width`-bit
big-endian representation of `value`. -/
def BuilderData.append_bits (b : BuilderData) (value width : Nat) : BuilderData :=
  { b with data := b.data ++ natToBits width value }

/-- Rust `BuilderData::append_raw(buf, bitlen)`: append the first `bitlen` bits of
the byte buffer, here already given as a bit-string. -/
def BuilderData.append_raw (b : BuilderData) (buf : List Bool) (bitlen : Nat) : BuilderData :=
  { b with data := b.data ++ buf.take bitlen }

/-- Rust `BuilderData::append_builder(other)`: append the other builder's bits and
references. -/
def BuilderData.append_builder (b other : BuilderData) : BuilderData :=
  { data := b.data ++ other.data, refs := b.refs ++ other.refs }

/-- A read cursor over a cell (`SliceData`, external collaborator): the
backing cell plus the not-yet-consumed bits and references. -/
structure SliceData where
  cell : CellData
  bits : List Bool
  refs : List Nat
  deriving Repr, DecidableEq

/-- Rust `SliceData::from(cell)`: a fresh cursor over the whole cell. -/
def SliceData.fromCell (c : CellData) : SliceData :=
  ⟨c, c.data, c.refs⟩

/-- Rust `SliceData::is_full_cell_slice()`: the cursor still covers the whole
backing cell (nothing has been consumed). -/
def SliceData.is_full_cell_slice (s : SliceData) : Bool :=
  s.bits == s.cell.data && s.refs == s.cell.refs

/-- Rust `SliceData::get_next_int(width)`: consume `width` bits and return their
big-endian value; fails with cursor truncation if fewer bits remain. -/
def SliceData.get_next_int (width : Nat) (s : SliceData) :
    Except BlockError (Nat × SliceData) :=
  if width ≤ s.bits.length then
    .ok (bitsToNat (s.bits.take width), { s with bits := s.bits.drop width })
  else
    .error .cellUnderflow

/-- Rust `SliceData::get_next_byte()`: consume one byte. -/
def SliceData.get_next_byte (s : SliceData) : Except BlockError (Nat × SliceData) :=
  s.get_next_int 8

/-- Rust `SliceData::get_next_bytes(n)`: consume `n` bytes, most significant
first. -/
def SliceData.get_next_bytes : Nat → SliceData → Except BlockError (List Nat × SliceData)
  | 0, s => .ok ([], s)
  | n + 1, s => do
    let (b, s₁) ← s.get_next_byte
    let (bs, s₂) ← SliceData.get_next_bytes n s₁
    .ok (b :: bs, s₂)

/-! The BigInt-backed branch of `define_VarIntegerN!` (`Grams` with N = 16,
`VarUInteger32` with N = 32).  The macro parameter `$N` (maximal byte count)
is an explicit argument `N` here. -/

namespace VarIntegerN

/-- Rust `value.bits()` of `num::BigInt`: bit length of the magnitude. -/
def bigintBits (value : Int) : Nat := bitLen value.natAbs

/-- Rust `get_len(value) = (value.bits() + 7) >> 3`: bytes needed for the
magnitude. -/
def get_len (value : Int) : Nat := (bigintBits value + 7) >>> 3

/-- Rust `get_len_len()`: size in bits of the `len` field, computed in the source
as `((N - 1) as f64).log2() as usize + 1`; for the instantiated widths
(N = 16 and N = 32, and any N whose `f64` log2 truncation is exact) this is
`⌊log2 (N - 1)⌋ + 1`. -/
def get_len_len (N : Nat) : Nat := log2Floor (N - 1) + 1

/-- Rust `check_owerflow(value)` (sic): fails with `InvalidArg` when the magnitude
needs strictly more than `N` bytes. -/
def check_owerflow (N : Nat) (value : Int) : Except BlockError Unit :=
  if get_len value > N then
    .error (.invalidArg ("value is bigger than " ++ toString N ++ " bytes"))
  else
    .ok ()

/-- Rust `from_two_u128(hi, lo)`: builds `(BigInt::from(hi) << 128) | lo` and
checks it for overflow.  For `lo < 2 ^ 128` (the `u128` range) the shift-or
is exactly `hi * 2 ^ 128 + lo`, the two operands having disjoint bits. -/
def from_two_u128 (N : Nat) (hi lo : Nat) : Except BlockError Int := do
  let val : Int := ((hi <<< 128) ||| lo : Nat)
  check_owerflow N val
  .ok val

/-- The `From<T: Into<BigInt>>` conversion: `check_owerflow` then wrap; the
source calls `.expect("Integer overflow")`, so the failure case is a panic,
modelled as `none`. -/
def fromBigInt (N : Nat) (value : Int) : Option Int :=
  match check_owerflow N value with
  | .ok _ => some value
  | .error _ => none

/-- Rust `write_to_cell(value)`: reject `len ≥ N` with `RangeCheckError`, else
append `len` in `get_len_len` bits and then the `len`-byte big-endian
magnitude (`value.to_bytes_be().1` truncated by `append_raw` to `len * 8`
bits, which is exactly the `len * 8`-bit big-endian representation of the
magnitude). -/
def write_to_cell (N : Nat) (value : Int) : Except BlockError BuilderData :=
  let len := get_len value
  if len ≥ N then
    .error .rangeCheckError
  else
    let cell := BuilderData.default
    let cell := cell.append_bits len (get_len_len N)
    let cell := cell.append_raw (natToBits (len * 8) value.natAbs) (len * 8)
    .ok cell

/-- Rust `read_from_cell(cell)`: read the `len` field, reject `len ≥ N` with
`RangeCheckError`, then read `len` bytes and return
`BigInt::from_bytes_be(Sign::Plus, bytes)`. -/
def read_from_cell (N : Nat) (cell : SliceData) : Except BlockError (Int × SliceData) := do
  let (len, cell) ← cell.get_next_int (get_len_len N)
  if len ≥ N then
    .error .rangeCheckError
  else
    let (bytes, cell) ← cell.get_next_bytes len
    .ok ((fromBytesBE bytes : Nat), cell)

/-- Rust `Serializable::write_to`: append `write_to_cell`'s builder to the given
builder. -/
def write_to (N : Nat) (value : Int) (cell : BuilderData) : Except BlockError BuilderData := do
  let data ← write_to_cell N value
  .ok (cell.append_builder data)

/-- Rust `Deserializable::read_from`: replace the value by `read_from_cell`'s
result. -/
def read_from (N : Nat) (cell : SliceData) : Except BlockError (Int × SliceData) :=
  read_from_cell N cell

/-- Rust `AddSub::add`: `self.0 += other.0`, always `Ok`. -/
def add (a other : Int) : Except BlockError Int := .ok (a + other)

/-- Rust `AddSub::sub`: if `self.0 >= other.0` subtract and return `Ok(true)`,
else leave the value unchanged and return `Ok(false)`. -/
def sub (a other : Int) : Except BlockError (Bool × Int) :=
  if a ≥ other then
    .ok (true, a - other)
  else
    .ok (false, a)

end VarIntegerN

/-! Rust `define_VarIntegerN!(Grams, 16, BigInt)` and
`define_VarIntegerN!(VarUInteger32, 32, BigInt)`. -/

namespace Grams

def get_len (value : Int) : Nat := VarIntegerN.get_len value

def get_len_len : Nat := VarIntegerN.get_len_len 16

def check_owerflow (value : Int) : Except BlockError Unit :=
  VarIntegerN.check_owerflow 16 value

def from_two_u128 (hi lo : Nat) : Except BlockError Int :=
  VarIntegerN.from_two_u128 16 hi lo

def fromBigInt (value : Int) : Option Int := VarIntegerN.fromBigInt 16 value

def write_to_cell (value : Int) : Except BlockError BuilderData :=
  VarIntegerN.write_to_cell 16 value

def read_from_cell (cell : SliceData) : Except BlockError (Int × SliceData) :=
  VarIntegerN.read_from_cell 16 cell

def add (a other : Int) : Except BlockError Int := VarIntegerN.add a other

def sub (a other : Int) : Except BlockError (Bool × Int) := VarIntegerN.sub a other

/-- Rust `Augmentable for Grams`: the source method is named `calc` (a Lean
keyword, so rendered `calcAugment` here); `self.0 += other.0`, always
`Ok`. -/
def calcAugment (a other : Int) : Except BlockError Int := .ok (a + other)

end Grams

namespace VarUInteger32

def write_to_cell (value : Int) : Except BlockError BuilderData :=
  VarIntegerN.write_to_cell 32 value

def read_from_cell (cell : SliceData) : Except BlockError (Int × SliceData) :=
  VarIntegerN.read_from_cell 32 cell

end VarUInteger32

/-! The machine-word branch of `define_VarIntegerN!` (`VarUInteger3` over
`u32`, `VarUInteger7` over `u64`).  The macro parameters are the maximal
byte count `N` and the bit width `w` of the backing word. -/

namespace VarUIntegerSmall

/-- Rust `bits = 8 - ($N as u8).leading_zeros()`: the `u8` leading-zero count is
`8 - Nat.size N` for `N ≤ 255`. -/
def lenBits (N : Nat) : Nat := 8 - (8 - bitLen N)

/-- Rust `bytes = (0 as $tt).leading_zeros() / 8 - self.0.leading_zeros() / 8`:
with word width `w`, the leading-zero count of `value` is
`w - Nat.size value`. -/
def bytesFor (w value : Nat) : Nat := w / 8 - (w - bitLen value) / 8

/-- Rust `Serializable::write_to` of the machine-word variant: reject
`bytes > N` with `IntegerOverflow`, else append `bytes` in `lenBits N` bits
and the value in `bytes * 8` bits. -/
def write_to (N w : Nat) (value : Nat) (cell : BuilderData) :
    Except BlockError BuilderData :=
  let bits := lenBits N
  let bytes := bytesFor w value
  if bytes > N then
    .error .integerOverflow
  else
    .ok ((cell.append_bits bytes bits).append_bits value (bytes * 8))

/-- Rust `Deserializable::read_from` of the machine-word variant: read the byte
count in `lenBits N` bits, then that many bytes as the value (`as $tt`
truncates to the word width); no range check is performed. -/
def read_from (N w : Nat) (slice : SliceData) : Except BlockError (Nat × SliceData) := do
  let bits := lenBits N
  let (bytes, slice) ← slice.get_next_int bits
  let (v, slice) ← slice.get_next_int (bytes * 8)
  .ok (v % 2 ^ w, slice)

end VarUIntegerSmall

/-! Rust `define_VarIntegerN!(VarUInteger3, 3, u32)` and
`define_VarIntegerN!(VarUInteger7, 7, u64)`. -/

namespace VarUInteger3

def write_to (value : Nat) (cell : BuilderData) : Except BlockError BuilderData :=
  VarUIntegerSmall.write_to 3 32 value cell

def read_from (slice : SliceData) : Except BlockError (Nat × SliceData) :=
  VarUIntegerSmall.read_from 3 32 slice

end VarUInteger3

namespace VarUInteger7

def write_to (value : Nat) (cell : BuilderData) : Except BlockError BuilderData :=
  VarUIntegerSmall.write_to 7 64 value cell

def read_from (slice : SliceData) : Except BlockError (Nat × SliceData) :=
  VarUIntegerSmall.read_from 7 64 slice

end VarUInteger7

/-! Rust `define_NumberN_up32bit!` (`Number5` .. `Number32`): fixed-width bounded
integers, the macro parameter `$N` (bit width) an explicit argument. -/

namespace NumberN

/-- Rust `from_u32(value, max_value)`: reject `value > max_value` with
`InvalidArg`. -/
def from_u32 (value max_value : Nat) : Except BlockError Nat :=
  if value > max_value then
    .error (.invalidArg ("value: " ++ toString value ++ " must be <= " ++
      toString max_value))
  else
    .ok value

/-- Rust `get_max_len() = ((1 as u64) << N) - 1`. -/
def get_max_len (N : Nat) : Nat := (1 <<< N) - 1

/-- Rust `Serializable::write_to`: append the value in exactly `N` bits. -/
def write_to (N : Nat) (value : Nat) (cell : BuilderData) :
    Except BlockError BuilderData :=
  .ok (cell.append_bits value N)

/-- Rust `Deserializable::read_from`: read exactly `N` bits. -/
def read_from (N : Nat) (cell : SliceData) : Except BlockError (Nat × SliceData) := do
  let (v, cell) ← cell.get_next_int N
  .ok (v, cell)

/-- Encoding scheme that the specification asserts for `NumberN` (a
length-of-length prefix of `⌈log2 N⌉` bits holding the number of bytes
needed for the value, then that many bytes most-significant first) — stated
from the spec's words only, for comparison against `write_to`. -/
def spec_claimed_encoding (N value : Nat) : List Bool :=
  let bytes := (bitLen value + 7) / 8
  natToBits (ceilLog2 N) bytes ++ natToBits (bytes * 8) value

end NumberN

namespace Number5

def from_u32 (value max_value : Nat) : Except BlockError Nat :=
  NumberN.from_u32 value max_value

def get_max_len : Nat := NumberN.get_max_len 5

def write_to (value : Nat) (cell : BuilderData) : Except BlockError BuilderData :=
  NumberN.write_to 5 value cell

def read_from (cell : SliceData) : Except BlockError (Nat × SliceData) :=
  NumberN.read_from 5 cell

end Number5

/-! Rust `ChildCell<T>`: a lazily decoded, typed handle on a single cell.  The
Rust phantom type parameter `T` and its `Deserializable` impl are modelled
by an explicit Lean type `α` together with an explicit type name (standing
for `std::any::type_name::<T>()`) and an explicit decoding function
(standing for `T::construct_from`). -/

structure ChildCell (α : Type) where
  cell : CellData
  deriving Repr, DecidableEq

namespace ChildCell

/-- Rust `ChildCell::read_struct()`: fail with `PrunedCellAccess` carrying `T`'s
type name when the held cell is a pruned-branch stub, otherwise decode a
fresh cursor over the held cell with `T::construct_from`. -/
def read_struct {α : Type} (typeName : String)
    (construct_from : SliceData → Except BlockError α) (c : ChildCell α) :
    Except BlockError α :=
  if c.cell.cellType == CellType.prunedBranch then
    .error (.prunedCellAccess typeName)
  else
    construct_from (SliceData.fromCell c.cell)

/-! Rust `ChildCell::cell()` returns the held cell without decoding it; it is
exactly the structure projection `ChildCell.cell`. -/

/-- Rust `Serializable for ChildCell`: fail with `InvalidArg` when the target
builder is not empty, otherwise
`builder.checked_append_references_and_data(&self.cell.into())` — append the
held cell's bits and references. -/
def write_to {α : Type} (c : ChildCell α) (builder : BuilderData) :
    Except BlockError BuilderData :=
  if !builder.is_empty then
    .error (.invalidArg "The builder must be empty")
  else
    .ok { data := builder.data ++ c.cell.data, refs := builder.refs ++ c.cell.refs }

/-- Rust `Deserializable for ChildCell`: fail with `InvalidArg` when the cursor is
not a full, unconsumed cell slice, otherwise adopt the cursor's backing cell
directly as the held cell. -/
def read_from {α : Type} (slice : SliceData) :
    Except BlockError (ChildCell α × SliceData) :=
  if !slice.is_full_cell_slice then
    .error (.invalidArg "The slice must have zero position")
  else
    .ok (⟨slice.cell⟩, slice)

end ChildCell

/-! The `GenericId` trait.  Its default methods live in `types.rs`; its
super-trait `GetRepresentationHash` is an external collaborator.
Modelled from the spec: `hash()` is a deterministic content hash of the
structure's snapshot, represented by the field `hashValue`; the cached id
(the `id_internal` / `id_mut_internal` accessors) is the field
`idInternal`.  Each operation returns, besides its value, the number of
`hash()` invocations it performed (the spec's "recomputation counter"). -/

structure HashedObject where
  idInternal : Option Nat
  hashValue : Nat
  deriving Repr, DecidableEq

namespace GenericId

/-- Rust `id()`: return the cached hash when present, else compute, cache and
return it.  Result: (returned hash, updated object, hash invocations). -/
def id (o : HashedObject) : Nat × HashedObject × Nat :=
  match o.idInternal with
  | some i => (i, o, 0)
  | none => (o.hashValue, { o with idInternal := some o.hashValue }, 1)

/-- Rust `prepare_id()`: compute and cache the hash when absent, returning
nothing.  Result: (updated object, hash invocations). -/
def prepare_id (o : HashedObject) : HashedObject × Nat :=
  match o.idInternal with
  | some _ => (o, 0)
  | none => ({ o with idInternal := some o.hashValue }, 1)

/-- Rust `calc_id()`: return the cached hash when present, else compute it
without caching; takes the object by shared reference, so it can never
modify the cached state (hence it returns no updated object). -/
def calc_id (o : HashedObject) : Nat :=
  match o.idInternal with
  | some i => i
  | none => o.hashValue

end GenericId

end TonTypes

namespace TonTypes

/-! Bridge between the executable `bitLen` and Mathlib's `Nat.size`, and
arithmetic facts about big-endian bit-strings. -/

/-- Halving recurrence of `Nat.size`. -/
theorem size_div_two (n : Nat) (h : n ≠ 0) : Nat.size n = Nat.size (n / 2) + 1 := by
  apply le_antisymm
  · rw [Nat.size_le, pow_succ]
    have h1 : n / 2 < 2 ^ Nat.size (n / 2) := Nat.size_le.mp le_rfl
    omega
  · rw [Nat.add_one_le_iff]
    apply Nat.lt_size.mpr
    rcases Nat.eq_zero_or_pos (n / 2) with h2 | h2
    · rw [h2, Nat.size_zero]
      omega
    · have hs1 : 1 ≤ Nat.size (n / 2) := Nat.lt_size.mpr (by simpa using h2)
      have h3 : 2 ^ (Nat.size (n / 2) - 1) ≤ n / 2 := Nat.lt_size.mp (by omega)
      have h4 : 2 ^ Nat.size (n / 2) = 2 * 2 ^ (Nat.size (n / 2) - 1) := by
        conv_lhs => rw [show Nat.size (n / 2) = (Nat.size (n / 2) - 1) + 1 by omega]
        rw [pow_succ]
        ring
      omega

theorem bitLenAux_eq_size (fuel : Nat) : ∀ n : Nat, n ≤ fuel → bitLenAux fuel n = Nat.size n := by
  induction fuel with
  | zero =>
    intro n h
    have : n = 0 := by omega
    subst this
    simp [bitLenAux, Nat.size_zero]
  | succ fuel ih =>
    intro n h
    by_cases hn : n = 0
    · subst hn
      simp [bitLenAux, Nat.size_zero]
    · have h2 : n / 2 ≤ fuel := by omega
      simp only [bitLenAux, if_neg hn, ih _ h2]
      exact (size_div_two n hn).symm

theorem bitLen_eq_size (n : Nat) : bitLen n = Nat.size n :=
  bitLenAux_eq_size n n le_rfl

theorem bitLen_le_iff (n k : Nat) : bitLen n ≤ k ↔ n < 2 ^ k := by
  rw [bitLen_eq_size, Nat.size_le]

theorem lt_two_pow_bitLen (n : Nat) : n < 2 ^ bitLen n :=
  (bitLen_le_iff n (bitLen n)).mp le_rfl

/-- Accumulator form of the big-endian bit fold. -/
theorem foldl_bits_acc (l : List Bool) (a : Nat) :
    l.foldl (fun acc b => 2 * acc + (if b then 1 else 0)) a =
      a * 2 ^ l.length + l.foldl (fun acc b => 2 * acc + (if b then 1 else 0)) 0 := by
  induction l generalizing a with
  | nil => simp
  | cons b l ih =>
    simp only [List.foldl_cons, List.length_cons]
    rw [ih (2 * a + (if b then 1 else 0)), ih (2 * 0 + (if b then 1 else 0))]
    cases b <;> simp <;> ring

theorem bitsToNat_append (l₁ l₂ : List Bool) :
    bitsToNat (l₁ ++ l₂) = bitsToNat l₁ * 2 ^ l₂.length + bitsToNat l₂ := by
  unfold bitsToNat
  rw [List.foldl_append, foldl_bits_acc]

theorem bitsToNat_lt (l : List Bool) : bitsToNat l < 2 ^ l.length := by
  induction l with
  | nil => simp [bitsToNat]
  | cons b l ih =>
    have h := foldl_bits_acc l (2 * 0 + (if b then 1 else 0))
    unfold bitsToNat at ih ⊢
    simp only [List.foldl_cons, List.length_cons]
    rw [h, pow_succ]
    cases b <;> simp <;> omega

theorem natToBits_length (w v : Nat) : (natToBits w v).length = w := by
  induction w generalizing v with
  | zero => rfl
  | succ w ih => simp [natToBits, ih]

/-- Low-bit split of a modulus by a power of two. -/
theorem mod_two_pow_succ (v w : Nat) :
    v % 2 ^ (w + 1) = 2 * (v / 2 % 2 ^ w) + v % 2 := by
  rw [Nat.pow_succ', Nat.mod_mul]
  omega

theorem bitsToNat_natToBits (w v : Nat) :
    bitsToNat (natToBits w v) = v % 2 ^ w := by
  induction w generalizing v with
  | zero => simp [natToBits, bitsToNat, Nat.mod_one]
  | succ w ih =>
    rw [natToBits, bitsToNat_append, ih]
    have hb : bitsToNat [v % 2 == 1] = v % 2 := by
      rcases Nat.mod_two_eq_zero_or_one v with h | h <;> simp [bitsToNat, h]
    rw [hb, mod_two_pow_succ]
    simp only [List.length_cons, List.length_nil, pow_one]
    ring

theorem natToBits_mod (w v : Nat) : natToBits w (v % 2 ^ w) = natToBits w v := by
  induction w generalizing v with
  | zero => rfl
  | succ w ih =>
    have h := mod_two_pow_succ v w
    have hm2 : v % 2 < 2 := Nat.mod_lt _ (by omega)
    have hmw : v / 2 % 2 ^ w < 2 ^ w := Nat.mod_lt _ (Nat.pos_pow_of_pos w (by omega))
    have h1 : v % 2 ^ (w + 1) / 2 = v / 2 % 2 ^ w := by omega
    have h2 : v % 2 ^ (w + 1) % 2 = v % 2 := by omega
    simp only [natToBits, h1, h2, ih]

/-- Splitting a big-endian representation into high and low parts. -/
theorem natToBits_split (a b v : Nat) :
    natToBits (a + b) v = natToBits a (v / 2 ^ b) ++ natToBits b v := by
  induction b generalizing v with
  | zero => simp [natToBits]
  | succ b ih =>
    show natToBits ((a + b) + 1) v = _
    rw [natToBits, ih, natToBits]
    rw [Nat.div_div_eq_div_mul, ← Nat.pow_succ']
    simp [List.append_assoc]

/-- Reading exactly the bits of a known prefix. -/
theorem get_next_int_spec (s : SliceData) (pre rest : List Bool)
    (h : s.bits = pre ++ rest) :
    s.get_next_int pre.length = .ok (bitsToNat pre, { s with bits := rest }) := by
  unfold SliceData.get_next_int
  rw [h, if_pos (by simp), List.take_left, List.drop_left]

/-- Accumulator form of the big-endian byte fold. -/
theorem foldl_bytes_acc (l : List Nat) (a : Nat) :
    l.foldl (fun acc b => 256 * acc + b) a =
      a * 256 ^ l.length + l.foldl (fun acc b => 256 * acc + b) 0 := by
  induction l generalizing a with
  | nil => simp
  | cons b l ih =>
    simp only [List.foldl_cons, List.length_cons]
    rw [ih (256 * a + b), ih (256 * 0 + b)]
    ring

theorem fromBytesBE_cons (b : Nat) (bs : List Nat) :
    fromBytesBE (b :: bs) = b * 256 ^ bs.length + fromBytesBE bs := by
  unfold fromBytesBE
  simp only [List.foldl_cons]
  rw [foldl_bytes_acc]
  ring_nf

/-- High/low split of a modulus by a power of two. -/
theorem mod_two_pow_add (x a b : Nat) :
    x % 2 ^ (b + a) = 2 ^ b * (x / 2 ^ b % 2 ^ a) + x % 2 ^ b := by
  rw [pow_add, Nat.mod_mul]
  omega

/-- Reading `n` bytes laid down as a big-endian representation recovers the
value. -/
theorem get_next_bytes_spec (n : Nat) :
    ∀ (s : SliceData) (v : Nat) (rest : List Bool),
      s.bits = natToBits (n * 8) v ++ rest →
      ∃ bs : List Nat,
        SliceData.get_next_bytes n s = .ok (bs, { s with bits := rest }) ∧
        bs.length = n ∧ fromBytesBE bs = v % 2 ^ (n * 8) := by
  induction n with
  | zero =>
    intro s v rest h
    have hb : s.bits = rest := by simpa [natToBits] using h
    refine ⟨[], ?_, rfl, by simp [fromBytesBE, Nat.mod_one]⟩
    obtain ⟨c, bts, rfs⟩ := s
    simp only at hb
    subst hb
    rfl
  | succ n ih =>
    intro s v rest h
    have hsplit : natToBits ((n + 1) * 8) v =
        natToBits 8 (v / 2 ^ (n * 8)) ++ natToBits (n * 8) v := by
      rw [show (n + 1) * 8 = 8 + n * 8 by ring, natToBits_split]
    rw [hsplit, List.append_assoc] at h
    have hbyte := get_next_int_spec s (natToBits 8 (v / 2 ^ (n * 8)))
      (natToBits (n * 8) v ++ rest) h
    rw [natToBits_length] at hbyte
    obtain ⟨bs, h1, h2, h3⟩ :=
      ih { s with bits := natToBits (n * 8) v ++ rest } v rest rfl
    refine ⟨bitsToNat (natToBits 8 (v / 2 ^ (n * 8))) :: bs, ?_, by simp [h2], ?_⟩
    · rw [SliceData.get_next_bytes]
      simp only [SliceData.get_next_byte, hbyte, h1, bind, Except.bind]
    · rw [fromBytesBE_cons, h2, h3, bitsToNat_natToBits]
      have h256 : (256 : Nat) ^ n = 2 ^ (n * 8) := by
        rw [show (256 : Nat) = 2 ^ 8 by norm_num, ← pow_mul, mul_comm]
      rw [h256, show (n + 1) * 8 = n * 8 + 8 by ring, mod_two_pow_add]
      ring

/-- A left-shift or-ed with a small value is addition (the operands have
disjoint binary digits). -/
theorem lor_shiftLeft_add : ∀ (k a b : Nat), b < 2 ^ k → (a <<< k) ||| b = a * 2 ^ k + b := by
  intro k
  induction k with
  | zero =>
    intro a b hb
    have hb0 : b = 0 := by omega
    subst hb0
    simp [Nat.shiftLeft_zero]
  | succ k ih =>
    intro a b hb
    have hb2 : b / 2 < 2 ^ k := by
      have hp : (2:Nat) ^ (k + 1) = 2 * 2 ^ k := Nat.pow_succ'
      omega
    rw [Nat.shiftLeft_succ]
    have h2 : 2 * (a <<< k) = Nat.bit false (a <<< k) := by
      rw [Nat.bit_false]
    have hbit : b = Nat.bit (b % 2 == 1) (b / 2) := by
      rcases Nat.mod_two_eq_zero_or_one b with h | h <;>
        · rw [h]
          simp [Nat.bit_false, Nat.bit_true]
          omega
    rw [h2]
    conv_lhs => rw [hbit]
    rw [Nat.lor_bit, Bool.false_or, ih a (b / 2) hb2]
    have hp : (2:Nat) ^ (k + 1) = 2 * 2 ^ k := Nat.pow_succ'
    rcases Nat.mod_two_eq_zero_or_one b with h | h
    · have hb' : 2 * (b / 2) = b := by omega
      simp only [h, show ((0:Nat) == 1) = false from rfl, Nat.bit_false]
      show 2 * (a * 2 ^ k + b / 2) = a * 2 ^ (k + 1) + b
      rw [hp]
      calc 2 * (a * 2 ^ k + b / 2) = a * (2 * 2 ^ k) + 2 * (b / 2) := by ring
        _ = a * (2 * 2 ^ k) + b := by rw [hb']
    · have hb' : 2 * (b / 2) + 1 = b := by omega
      simp only [h, show ((1:Nat) == 1) = true from rfl, Nat.bit_true]
      show 2 * (a * 2 ^ k + b / 2) + 1 = a * 2 ^ (k + 1) + b
      rw [hp]
      calc 2 * (a * 2 ^ k + b / 2) + 1 = a * (2 * 2 ^ k) + (2 * (b / 2) + 1) := by ring
        _ = a * (2 * 2 ^ k) + b := by rw [hb']

/-- Magnitude bound from `get_len`: a value always fits in the byte count
`get_len` reports. -/
theorem natAbs_lt_two_pow_len (v : Int) :
    v.natAbs < 2 ^ (VarIntegerN.get_len v * 8) := by
  unfold VarIntegerN.get_len VarIntegerN.bigintBits
  rw [Nat.shiftRight_eq_div_pow]
  have h1 : v.natAbs < 2 ^ bitLen v.natAbs := lt_two_pow_bitLen _
  refine lt_of_lt_of_le h1 (Nat.pow_le_pow_right (by omega) ?_)
  have h8 : (2:Nat) ^ 3 = 8 := by norm_num
  rw [h8]
  omega

/-- The `len` field always fits the `get_len_len` prefix width. -/
theorem len_lt_pow_get_len_len (N len : Nat) (h : len < N) :
    len < 2 ^ VarIntegerN.get_len_len N := by
  unfold VarIntegerN.get_len_len log2Floor
  have h1 : N - 1 < 2 ^ bitLen (N - 1) := lt_two_pow_bitLen (N - 1)
  have h2 : 2 ^ bitLen (N - 1) ≤ 2 ^ (bitLen (N - 1) - 1 + 1) :=
    Nat.pow_le_pow_right (by omega) (by omega)
  omega

/-- Evaluation of a successful `write_to_cell`. -/
theorem write_to_cell_ok (N : Nat) (v : Int) (h : VarIntegerN.get_len v < N) :
    VarIntegerN.write_to_cell N v =
      .ok { data := natToBits (VarIntegerN.get_len_len N) (VarIntegerN.get_len v) ++
              natToBits (VarIntegerN.get_len v * 8) v.natAbs,
            refs := [] } := by
  unfold VarIntegerN.write_to_cell
  rw [if_neg (by omega)]
  simp [BuilderData.default, BuilderData.append_bits, BuilderData.append_raw,
    List.take_of_length_le, natToBits_length]

/-- Evaluation of a rejected `write_to_cell`. -/
theorem write_to_cell_err (N : Nat) (v : Int) (h : N ≤ VarIntegerN.get_len v) :
    VarIntegerN.write_to_cell N v = .error .rangeCheckError := by
  unfold VarIntegerN.write_to_cell
  rw [if_pos (by omega)]

/-- Core round-trip of the BigInt-backed variable-length codec: decoding the
bits laid down by a successful encode, followed by arbitrary junk, returns
the value and consumes exactly the encoded bits. -/
theorem read_write_cell (N : Nat) (v : Int) (c : CellData) (rest : List Bool)
    (hv : 0 ≤ v) (hlen : VarIntegerN.get_len v < N)
    (hc : c.data = natToBits (VarIntegerN.get_len_len N) (VarIntegerN.get_len v) ++
            (natToBits (VarIntegerN.get_len v * 8) v.natAbs ++ rest)) :
    VarIntegerN.read_from_cell N (SliceData.fromCell c) =
      .ok (v, { cell := c, bits := rest, refs := c.refs }) := by
  have hfst := get_next_int_spec (SliceData.fromCell c)
    (natToBits (VarIntegerN.get_len_len N) (VarIntegerN.get_len v))
    (natToBits (VarIntegerN.get_len v * 8) v.natAbs ++ rest)
    (by simpa [SliceData.fromCell] using hc)
  rw [natToBits_length, bitsToNat_natToBits,
    Nat.mod_eq_of_lt (len_lt_pow_get_len_len N _ hlen)] at hfst
  obtain ⟨bs, hbytes, hblen, hbval⟩ := get_next_bytes_spec (VarIntegerN.get_len v)
    { cell := c, bits := natToBits (VarIntegerN.get_len v * 8) v.natAbs ++ rest,
      refs := c.refs } v.natAbs rest rfl
  unfold VarIntegerN.read_from_cell
  simp only [hfst, bind, Except.bind, if_neg (by omega : ¬ VarIntegerN.get_len v ≥ N)]
  simp only [SliceData.fromCell, hbytes, hbval, Nat.mod_eq_of_lt (natAbs_lt_two_pow_len v)]
  rw [Int.natAbs_of_nonneg hv]

/-! Claim C1. -/

/-- Claim C1, counterexample: the claim quantifies over every BigInt-backed
value whose big-endian magnitude needs fewer than `N` bytes, but a negative
value such as `-1` (magnitude 1 byte) does not round-trip: `write_to_cell`
writes only the magnitude (`to_bytes_be().1`) and `read_from_cell` rebuilds
the value with `Sign::Plus`, so decoding the encoding of `-1` returns `1`. -/
theorem claim_C1_counterexample :
    Grams.write_to_cell (-1) =
      .ok { data := [false, false, false, true,
                     false, false, false, false, false, false, false, true],
            refs := [] } ∧
    Grams.read_from_cell (SliceData.fromCell
      { cellType := .ordinary,
        data := [false, false, false, true,
                 false, false, false, false, false, false, false, true],
        refs := [] }) =
      .ok (1, { cell := { cellType := .ordinary,
                          data := [false, false, false, true,
                                   false, false, false, false, false, false, false, true],
                          refs := [] },
                bits := [], refs := [] }) ∧
    (1 : Int) ≠ -1 :=
  ⟨rfl, rfl, by decide⟩

/-- Claim C1 (amended: restricted to nonnegative values, as the
counterexample shows negative magnitudes decode with a plus sign): for every
nonnegative BigInt-backed variable-length value whose big-endian magnitude
needs fewer than `N` bytes, decoding the bit-string produced by encoding —
with any trailing bits after it — returns a value equal to the original, and
decoding consumes exactly the bits that encoding appended; zero round-trips
via a zero length field with no magnitude bytes. -/
theorem claim_C1_roundtrip :
    (∀ (N : Nat) (v : Int) (c : CellData) (rest : List Bool),
      0 ≤ v → VarIntegerN.get_len v < N →
      ∃ b : BuilderData,
        VarIntegerN.write_to_cell N v = .ok b ∧
        b.refs = [] ∧
        (c.data = b.data ++ rest →
          VarIntegerN.read_from_cell N (SliceData.fromCell c) =
            .ok (v, { cell := c, bits := rest, refs := c.refs }))) ∧
    Grams.write_to_cell 0 =
      .ok { data := [false, false, false, false], refs := [] } ∧
    Grams.read_from_cell (SliceData.fromCell
      { cellType := .ordinary, data := [false, false, false, false], refs := [] }) =
      .ok (0, { cell := { cellType := .ordinary,
                          data := [false, false, false, false], refs := [] },
                bits := [], refs := [] }) := by
  refine ⟨?_, rfl, rfl⟩
  intro N v c rest hv hlen
  refine ⟨_, write_to_cell_ok N v hlen, rfl, ?_⟩
  intro hc
  exact read_write_cell N v c rest hv hlen (by simpa [List.append_assoc] using hc)

/-- Witness for C1: the round-trip applied to `Grams` (N = 16) at value 5
with no trailing bits. -/
theorem claim_C1_roundtrip_witness :
    VarIntegerN.read_from_cell 16 (SliceData.fromCell
      { cellType := .ordinary,
        data := [false, false, false, true,
                 false, false, false, false, false, true, false, true],
        refs := [] }) =
      .ok (5, { cell := { cellType := .ordinary,
                          data := [false, false, false, true,
                                   false, false, false, false, false, true, false, true],
                          refs := [] },
                bits := [], refs := [] }) := by
  obtain ⟨b, hw, hrefs, hread⟩ := claim_C1_roundtrip.1 16 5
    { cellType := .ordinary,
      data := [false, false, false, true,
               false, false, false, false, false, true, false, true],
      refs := [] } [] (by decide) (by decide)
  have hw' : VarIntegerN.write_to_cell 16 5 =
      .ok { data := [false, false, false, true,
                     false, false, false, false, false, true, false, true],
            refs := [] } := rfl
  rw [hw] at hw'
  have hb := Except.ok.inj hw'
  subst hb
  exact hread (by simp)

/-- Either `get_next_int` succeeds or it fails with cursor truncation. -/
theorem get_next_int_cases (w : Nat) (s : SliceData) :
    (∃ r, s.get_next_int w = .ok r) ∨ s.get_next_int w = .error .cellUnderflow := by
  unfold SliceData.get_next_int
  split
  · exact .inl ⟨_, rfl⟩
  · exact .inr rfl

/-- Value of `get_len` on a coerced natural number. -/
theorem get_len_coe (n : Nat) : VarIntegerN.get_len (n : Int) = (Nat.size n + 7) / 8 := by
  unfold VarIntegerN.get_len VarIntegerN.bigintBits
  rw [Int.natAbs_ofNat, bitLen_eq_size, Nat.shiftRight_eq_div_pow]

/-! Claim C5. -/

/-- Claim C5: for all currency amounts, `a.sub(b)` returns `Ok(true)` and
replaces `a` by `a - b` exactly when `a ≥ b`, and otherwise returns
`Ok(false)` leaving `a` unchanged. -/
theorem claim_C5_sub :
    ∀ a b : Int,
      (b ≤ a → Grams.sub a b = .ok (true, a - b)) ∧
      (a < b → Grams.sub a b = .ok (false, a)) := by
  intro a b
  constructor
  · intro h
    unfold Grams.sub VarIntegerN.sub
    rw [if_pos h]
  · intro h
    unfold Grams.sub VarIntegerN.sub
    rw [if_neg (by omega)]

/-- Witness for C5: both branches at concrete amounts. -/
theorem claim_C5_sub_witness :
    Grams.sub 7 5 = .ok (true, 2) ∧ Grams.sub 5 7 = .ok (false, 5) :=
  ⟨(claim_C5_sub 7 5).1 (by decide), (claim_C5_sub 5 7).2 (by decide)⟩

/-! Claim C6. -/

/-- Claim C6: `add` (and the `Augmentable` `calc`) always returns `Ok` and
stores the exact arbitrary-precision sum, with no overflow check at the
accumulation point; a sum whose magnitude needs `N = 16` or more bytes is
rejected only later, when `write_to_cell` re-encodes it
(`RangeCheckError`). -/
theorem claim_C6_add :
    (∀ a b : Int, Grams.add a b = .ok (a + b)) ∧
    (∀ a b : Int, Grams.calcAugment a b = .ok (a + b)) ∧
    (∀ v : Int, 16 ≤ VarIntegerN.get_len v →
      Grams.write_to_cell v = .error .rangeCheckError) := by
  refine ⟨fun a b => rfl, fun a b => rfl, fun v hv => write_to_cell_err 16 v hv⟩

set_option maxRecDepth 8192

/-- Witness for C6: a sum at the representable boundary still accumulates,
and re-encoding it fails. -/
theorem claim_C6_add_witness :
    Grams.add 170141183460469231731687303715884105727 1 =
      .ok 170141183460469231731687303715884105728 ∧
    Grams.write_to_cell 170141183460469231731687303715884105728 =
      .error .rangeCheckError := by
  refine ⟨claim_C6_add.1 170141183460469231731687303715884105727 1, ?_⟩
  exact claim_C6_add.2.2 170141183460469231731687303715884105728 (by decide)

/-! Claim C9. -/

/-- Claim C9: `id()` returns the cached hash when present and otherwise
computes, caches and returns it, so two consecutive `id()` calls agree and
the second performs no hash recomputation and does not change the object;
`calc_id()` is a pure function of the object (it can never modify the
cached state); and `id()`, `prepare_id()`-then-`id()`, and `calc_id()` all
return the same hash for a given snapshot. -/
theorem claim_C9_generic_id :
    ∀ o : HashedObject,
      (GenericId.id o).1 = GenericId.calc_id o ∧
      (GenericId.id (GenericId.id o).2.1).1 = (GenericId.id o).1 ∧
      (GenericId.id (GenericId.id o).2.1).2.1 = (GenericId.id o).2.1 ∧
      (GenericId.id (GenericId.id o).2.1).2.2 = 0 ∧
      (GenericId.id (GenericId.prepare_id o).1).1 = (GenericId.id o).1 ∧
      (GenericId.id (GenericId.prepare_id o).1).2.2 = 0 := by
  intro o
  obtain ⟨idInt, hashVal⟩ := o
  cases idInt <;>
    simp [GenericId.id, GenericId.prepare_id, GenericId.calc_id]

/-! Claim C4. -/

/-- Claim C4: `from_u32(value, max_value)` returns the constructed value
when `value ≤ max_value` and fails with `InvalidArg` when
`value > max_value`; `get_max_len()` returns `2 ^ N - 1`; for `Number5`,
`get_max_len()` is 31, `from_u32(31, 31)` succeeds and `from_u32(32, 31)`
fails with `InvalidArg`. -/
theorem claim_C4_from_u32 :
    (∀ value max_value : Nat,
      (value ≤ max_value → NumberN.from_u32 value max_value = .ok value) ∧
      (max_value < value →
        NumberN.from_u32 value max_value =
          .error (.invalidArg ("value: " ++ toString value ++ " must be <= " ++
            toString max_value)))) ∧
    (∀ N : Nat, NumberN.get_max_len N = 2 ^ N - 1) ∧
    Number5.get_max_len = 31 ∧
    Number5.from_u32 31 31 = .ok 31 ∧
    Number5.from_u32 32 31 = .error (.invalidArg "value: 32 must be <= 31") := by
  refine ⟨?_, ?_, rfl, rfl, rfl⟩
  · intro value max_value
    constructor
    · intro h
      unfold NumberN.from_u32
      rw [if_neg (by omega)]
    · intro h
      unfold NumberN.from_u32
      rw [if_pos (by omega)]
  · intro N
    unfold NumberN.get_max_len
    rw [Nat.shiftLeft_eq, Nat.one_mul]

/-- Witness for C4: both construction branches at the `Number5` boundary. -/
theorem claim_C4_from_u32_witness :
    NumberN.from_u32 31 31 = .ok 31 ∧
    NumberN.from_u32 32 31 =
      .error (.invalidArg ("value: " ++ toString (32:Nat) ++ " must be <= " ++
        toString (31:Nat))) ∧
    NumberN.get_max_len 5 = 2 ^ 5 - 1 :=
  ⟨(claim_C4_from_u32.1 31 31).1 (by decide),
   (claim_C4_from_u32.1 32 31).2 (by decide),
   claim_C4_from_u32.2.1 5⟩

/-! Claim C7. -/

/-- Claim C7: on a `ChildCell` whose held cell is a pruned-branch stub,
`read_struct()` fails with `PrunedCellAccess` carrying the expected type's
name, without invoking the decoder (the result does not depend on the
decoding function), while the `cell()` accessor still returns the stub
cell. -/
theorem claim_C7_pruned :
    ∀ (α : Type) (typeName : String)
      (construct_from construct_other : SliceData → Except BlockError α)
      (st : CellData),
      st.cellType = CellType.prunedBranch →
      ChildCell.read_struct typeName construct_from (⟨st⟩ : ChildCell α) =
          .error (.prunedCellAccess typeName) ∧
      ChildCell.read_struct typeName construct_from (⟨st⟩ : ChildCell α) =
        ChildCell.read_struct typeName construct_other (⟨st⟩ : ChildCell α) ∧
      (⟨st⟩ : ChildCell α).cell = st := by
  intro α typeName c1 c2 st h
  refine ⟨?_, ?_, rfl⟩ <;> simp [ChildCell.read_struct, h]

/-- Witness for C7: a pruned stub holding one bit, read as a `Nat`. -/
theorem claim_C7_pruned_witness :
    ChildCell.read_struct "Transaction" (fun _ => .ok (0 : Nat))
        (⟨{ cellType := .prunedBranch, data := [true], refs := [7] }⟩ : ChildCell Nat) =
      .error (.prunedCellAccess "Transaction") :=
  (claim_C7_pruned Nat "Transaction" (fun _ => .ok 0) (fun _ => .error .cellUnderflow)
    { cellType := .prunedBranch, data := [true], refs := [7] } rfl).1

/-! Claim C8. -/

/-- Claim C8: serializing a `ChildCell` fails with `InvalidArg` whenever the
target builder is non-empty and otherwise copies the held cell's bits and
references into it; deserializing fails with `InvalidArg` whenever the
cursor is not a full, unconsumed cell slice, and otherwise adopts the
cursor's backing cell directly as the held cell. -/
theorem claim_C8_childcell_io :
    ∀ (α : Type) (cc : ChildCell α) (builder : BuilderData) (s : SliceData),
      (builder.is_empty = false →
        ChildCell.write_to cc builder =
          .error (.invalidArg "The builder must be empty")) ∧
      (builder.is_empty = true →
        ChildCell.write_to cc builder =
          .ok { data := builder.data ++ cc.cell.data,
                refs := builder.refs ++ cc.cell.refs }) ∧
      (s.is_full_cell_slice = false →
        @ChildCell.read_from α s =
          .error (.invalidArg "The slice must have zero position")) ∧
      (s.is_full_cell_slice = true →
        @ChildCell.read_from α s = .ok (⟨s.cell⟩, s)) := by
  intro α cc builder s
  refine ⟨?_, ?_, ?_, ?_⟩ <;> intro h <;>
    simp [ChildCell.write_to, ChildCell.read_from, h]

/-- Witness for C8: all four branches at concrete builders and cursors. -/
theorem claim_C8_childcell_io_witness :
    ChildCell.write_to (⟨{ data := [true], refs := [3] }⟩ : ChildCell Nat)
        { data := [false], refs := [] } =
      .error (.invalidArg "The builder must be empty") ∧
    ChildCell.write_to (⟨{ data := [true], refs := [3] }⟩ : ChildCell Nat)
        { data := [], refs := [] } =
      .ok { data := [true], refs := [3] } ∧
    @ChildCell.read_from Nat
        { cell := { data := [true] }, bits := [], refs := [] } =
      .error (.invalidArg "The slice must have zero position") ∧
    @ChildCell.read_from Nat
        { cell := { data := [true] }, bits := [true], refs := [] } =
      .ok (⟨{ data := [true] }⟩, { cell := { data := [true] }, bits := [true], refs := [] }) := by
  refine ⟨?_, ?_, ?_, ?_⟩
  · exact (claim_C8_childcell_io Nat ⟨{ data := [true], refs := [3] }⟩
      { data := [false], refs := [] }
      { cell := { data := [true] }, bits := [], refs := [] }).1 rfl
  · exact (claim_C8_childcell_io Nat ⟨{ data := [true], refs := [3] }⟩
      { data := [], refs := [] }
      { cell := { data := [true] }, bits := [], refs := [] }).2.1 rfl
  · exact (claim_C8_childcell_io Nat ⟨{ data := [true], refs := [3] }⟩
      { data := [], refs := [] }
      { cell := { data := [true] }, bits := [], refs := [] }).2.2.1 rfl
  · exact (claim_C8_childcell_io Nat ⟨{ data := [true], refs := [3] }⟩
      { data := [], refs := [] }
      { cell := { data := [true] }, bits := [true], refs := [] }).2.2.2 rfl

/-! Claim C2. -/

/-- Claim C2, counterexample: for the machine-word-backed `VarUInteger3`
(N = 3), encoding the value 65536, whose magnitude needs exactly `N = 3`
bytes, is not rejected at all — the code only rejects byte counts strictly
greater than `N`, and with `IntegerOverflow`, not `RangeCheckError`. -/
theorem claim_C2_counterexample :
    VarUInteger3.write_to 65536 BuilderData.default =
      .ok { data := natToBits 2 3 ++ natToBits 24 65536, refs := [] } ∧
    VarUInteger3.write_to 65536 BuilderData.default ≠
      .error .rangeCheckError := by
  constructor
  · rfl
  · intro h
    rw [show VarUInteger3.write_to 65536 BuilderData.default =
        .ok { data := natToBits 2 3 ++ natToBits 24 65536, refs := [] } from rfl] at h
    exact Except.noConfusion h

/-- Claim C2 (amended): for the BigInt-backed types a length of `N` or more
is rejected with `RangeCheckError` both at encode and at decode, and any
magnitude needing fewer than `N` bytes (in particular exactly `N - 1`)
encodes successfully; for the machine-word-backed types encode rejects only
byte counts strictly greater than `N`, with `IntegerOverflow` (so a
magnitude needing exactly `N` bytes encodes successfully), and decode
performs no length check at all — its only failure mode is cursor
truncation. -/
theorem claim_C2_length_checks :
    (∀ (N : Nat) (v : Int), N ≤ VarIntegerN.get_len v →
      VarIntegerN.write_to_cell N v = .error .rangeCheckError) ∧
    (∀ (N : Nat) (v : Int), VarIntegerN.get_len v < N →
      ∃ b, VarIntegerN.write_to_cell N v = .ok b) ∧
    (∀ (N len : Nat) (s s' : SliceData),
      s.get_next_int (VarIntegerN.get_len_len N) = .ok (len, s') → N ≤ len →
      VarIntegerN.read_from_cell N s = .error .rangeCheckError) ∧
    (∀ (N w value : Nat) (cell : BuilderData),
      N < VarUIntegerSmall.bytesFor w value →
      VarUIntegerSmall.write_to N w value cell = .error .integerOverflow) ∧
    (∀ (N w value : Nat) (cell : BuilderData),
      VarUIntegerSmall.bytesFor w value ≤ N →
      VarUIntegerSmall.write_to N w value cell =
        .ok ((cell.append_bits (VarUIntegerSmall.bytesFor w value)
                (VarUIntegerSmall.lenBits N)).append_bits value
              (VarUIntegerSmall.bytesFor w value * 8))) ∧
    (∀ (N w : Nat) (s : SliceData) (e : BlockError),
      VarUIntegerSmall.read_from N w s = .error e → e = .cellUnderflow) := by
  refine ⟨fun N v h => write_to_cell_err N v h,
          fun N v h => ⟨_, write_to_cell_ok N v h⟩, ?_, ?_, ?_, ?_⟩
  · intro N len s s' h hlen
    unfold VarIntegerN.read_from_cell
    simp only [h, bind, Except.bind, if_pos (by omega : len ≥ N)]
  · intro N w value cell h
    unfold VarUIntegerSmall.write_to
    rw [if_pos (by omega)]
  · intro N w value cell h
    unfold VarUIntegerSmall.write_to
    rw [if_neg (by omega)]
  · intro N w s e h
    unfold VarUIntegerSmall.read_from at h
    rcases get_next_int_cases (VarUIntegerSmall.lenBits N) s with ⟨⟨bytes, s₁⟩, hr⟩ | hr
    · simp only [hr, bind, Except.bind] at h
      rcases get_next_int_cases (bytes * 8) s₁ with ⟨⟨v, s₂⟩, hr₂⟩ | hr₂
      · simp only [hr₂, bind, Except.bind] at h
        exact absurd h (by simp)
      · simp only [hr₂, bind, Except.bind] at h
        exact (Except.error.inj h).symm
    · simp only [hr, bind, Except.bind] at h
      exact (Except.error.inj h).symm

/-- Witness for C2: the boundary behaviors at concrete inputs — a 16-byte
magnitude is rejected by `Grams`, a 15-byte one encodes, a decoded length
prefix at `N` is rejected in the BigInt family, a 4-byte value overflows
`VarUInteger3`, a 3-byte value encodes there, and decoding from an empty
cursor underflows. -/
theorem claim_C2_length_checks_witness :
    VarIntegerN.write_to_cell 16 170141183460469231731687303715884105728 =
      .error .rangeCheckError ∧
    (∃ b, VarIntegerN.write_to_cell 16 1329227995784915872903807060280344575 = .ok b) ∧
    VarIntegerN.read_from_cell 3
      { cell := { data := [true, true] }, bits := [true, true], refs := [] } =
      .error .rangeCheckError ∧
    VarUIntegerSmall.write_to 3 32 16777216 BuilderData.default =
      .error .integerOverflow ∧
    VarUIntegerSmall.write_to 3 32 65536 BuilderData.default =
      .ok ((BuilderData.default.append_bits 3 2).append_bits 65536 24) := by
  refine ⟨?_, ?_, ?_, ?_, ?_⟩
  · exact claim_C2_length_checks.1 16 170141183460469231731687303715884105728 (by decide)
  · exact claim_C2_length_checks.2.1 16 1329227995784915872903807060280344575 (by decide)
  · exact claim_C2_length_checks.2.2.1 3 3
      { cell := { data := [true, true] }, bits := [true, true], refs := [] }
      { cell := { data := [true, true] }, bits := [], refs := [] } rfl (by decide)
  · exact claim_C2_length_checks.2.2.2.1 3 32 16777216 BuilderData.default (by decide)
  · exact claim_C2_length_checks.2.2.2.2.1 3 32 65536 BuilderData.default (by decide)

/-! Claim C3. -/

/-- Claim C3, counterexample: `Number5.write_to` of the value 1 produces the
5-bit fixed-width string, not the length-prefixed form the claim describes
(`⌈log2 5⌉ = 3` prefix bits plus one byte, 11 bits in all). -/
theorem claim_C3_counterexample :
    NumberN.write_to 5 1 BuilderData.default =
      .ok { data := natToBits 5 1, refs := [] } ∧
    (natToBits 5 1).length = 5 ∧
    NumberN.spec_claimed_encoding 5 1 ≠ natToBits 5 1 ∧
    (NumberN.spec_claimed_encoding 5 1).length = 11 :=
  ⟨rfl, by decide, by decide, by decide⟩

/-- Claim C3 (amended): every `NumberN` type stores its value in exactly `N`
bits, fixed width and most significant bit first — there is no
length-of-length prefix; `read_from` reads exactly `N` bits back (round trip
for every value below `2 ^ N`) and its only failure mode is cursor
truncation, never `RangeCheckError`. -/
theorem claim_C3_numberN :
    (∀ (N value : Nat) (cell : BuilderData),
      NumberN.write_to N value cell =
        .ok { cell with data := cell.data ++ natToBits N value }) ∧
    (∀ (N v : Nat) (c : CellData) (rest : List Bool),
      v < 2 ^ N →
      c.data = natToBits N v ++ rest →
      NumberN.read_from N (SliceData.fromCell c) =
        .ok (v, { cell := c, bits := rest, refs := c.refs })) ∧
    (∀ (N : Nat) (s : SliceData) (e : BlockError),
      NumberN.read_from N s = .error e → e = .cellUnderflow) := by
  refine ⟨fun N value cell => rfl, ?_, ?_⟩
  · intro N v c rest hv hc
    have h := get_next_int_spec (SliceData.fromCell c) (natToBits N v) rest
      (by simpa [SliceData.fromCell] using hc)
    rw [natToBits_length, bitsToNat_natToBits, Nat.mod_eq_of_lt hv] at h
    simp only [SliceData.fromCell] at h
    unfold NumberN.read_from
    simp only [SliceData.fromCell, h, bind, Except.bind]
  · intro N s e h
    unfold NumberN.read_from at h
    rcases get_next_int_cases N s with ⟨⟨v, s₁⟩, hr⟩ | hr
    · rw [hr] at h
      simp only [bind, Except.bind] at h
      exact absurd h (by simp)
    · rw [hr] at h
      simp only [bind, Except.bind] at h
      exact (Except.error.inj h).symm

/-- Witness for C3: `Number5` round-trips the value 21 through its 5-bit
encoding. -/
theorem claim_C3_numberN_witness :
    NumberN.write_to 5 21 BuilderData.default =
      .ok { data := natToBits 5 21, refs := [] } ∧
    NumberN.read_from 5 (SliceData.fromCell { data := [true, false, true, false, true] }) =
      .ok (21, { cell := { data := [true, false, true, false, true] },
                 bits := [], refs := [] }) := by
  constructor
  · exact claim_C3_numberN.1 5 21 BuilderData.default
  · exact claim_C3_numberN.2.1 5 21 { data := [true, false, true, false, true] } []
      (by decide) (by decide)

/-! Claim C10. -/

/-- Claim C10: construction and serialization disagree at the `N`-byte
boundary of the BigInt-backed family: `check_owerflow` accepts every value
whose magnitude needs exactly `N = 16` bytes (it rejects only strictly
greater lengths), so the `From` conversion succeeds on such values, yet
`write_to_cell` rejects them with `RangeCheckError`; `from_two_u128(hi, lo)`
succeeds exactly when `hi = 0`; and `2 ^ 127` (a 16-byte magnitude) is such
a constructible but unserializable `Grams` value. -/
theorem claim_C10_boundary :
    (∀ v : Int, VarIntegerN.get_len v = 16 →
      Grams.check_owerflow v = .ok () ∧
      Grams.fromBigInt v = some v ∧
      Grams.write_to_cell v = .error .rangeCheckError) ∧
    (∀ hi lo : Nat, lo < 2 ^ 128 →
      ((∃ x, Grams.from_two_u128 hi lo = .ok x) ↔ hi = 0)) ∧
    (∀ lo : Nat, lo < 2 ^ 128 → Grams.from_two_u128 0 lo = .ok (lo : Int)) ∧
    VarIntegerN.get_len ((2 : Int) ^ 127) = 16 := by
  refine ⟨?_, ?_, ?_, ?_⟩
  · intro v hv
    have hchk : VarIntegerN.check_owerflow 16 v = .ok () := by
      unfold VarIntegerN.check_owerflow
      rw [if_neg (by omega)]
    refine ⟨hchk, ?_, write_to_cell_err 16 v (by omega)⟩
    unfold Grams.fromBigInt VarIntegerN.fromBigInt
    rw [hchk]
  · intro hi lo hlo
    unfold Grams.from_two_u128 VarIntegerN.from_two_u128
    rw [lor_shiftLeft_add 128 hi lo hlo]
    constructor
    · rintro ⟨x, hx⟩
      by_contra hne
      have h1 : 2 ^ 128 ≤ hi * 2 ^ 128 + lo := by
        have h2 : 1 * 2 ^ 128 ≤ hi * 2 ^ 128 :=
          Nat.mul_le_mul_right _ (by omega)
        omega
      have hsz : 128 < Nat.size (hi * 2 ^ 128 + lo) := Nat.lt_size.mpr h1
      have hchk : VarIntegerN.check_owerflow 16 ((hi * 2 ^ 128 + lo : Nat) : Int) =
          .error (.invalidArg ("value is bigger than " ++ toString 16 ++ " bytes")) := by
        unfold VarIntegerN.check_owerflow
        rw [if_pos (by rw [get_len_coe]; omega)]
      simp only [hchk, bind, Except.bind] at hx
      exact Except.noConfusion hx
    · rintro rfl
      refine ⟨((0 * 2 ^ 128 + lo : Nat) : Int), ?_⟩
      have hsz : Nat.size (0 * 2 ^ 128 + lo) ≤ 128 :=
        Nat.size_le.mpr (by omega)
      have hchk : VarIntegerN.check_owerflow 16 ((0 * 2 ^ 128 + lo : Nat) : Int) =
          .ok () := by
        unfold VarIntegerN.check_owerflow
        rw [if_neg (by rw [get_len_coe]; omega)]
      simp only [hchk, bind, Except.bind]
  · intro lo hlo
    unfold Grams.from_two_u128 VarIntegerN.from_two_u128
    rw [Nat.zero_shiftLeft, Nat.zero_or]
    have hsz : Nat.size lo ≤ 128 := Nat.size_le.mpr hlo
    have hchk : VarIntegerN.check_owerflow 16 ((lo : Nat) : Int) = .ok () := by
      unfold VarIntegerN.check_owerflow
      rw [if_neg (by rw [get_len_coe]; omega)]
    simp only [hchk, bind, Except.bind]
  · have h1 : ((2 : Int) ^ 127).natAbs = 2 ^ 127 := by
      rw [Int.natAbs_pow, show (2 : Int).natAbs = 2 from rfl]
    unfold VarIntegerN.get_len VarIntegerN.bigintBits
    rw [h1, bitLen_eq_size, Nat.size_pow, Nat.shiftRight_eq_div_pow]

/-- Witness for C10: the boundary value `2 ^ 127` is accepted by
construction but rejected by serialization, and `from_two_u128` succeeds
exactly on a zero high half. -/
theorem claim_C10_boundary_witness :
    Grams.check_owerflow ((2 : Int) ^ 127) = .ok () ∧
    Grams.fromBigInt ((2 : Int) ^ 127) = some ((2 : Int) ^ 127) ∧
    Grams.write_to_cell ((2 : Int) ^ 127) = .error .rangeCheckError ∧
    Grams.from_two_u128 0 5 = .ok (5 : Int) ∧
    ¬ (∃ x, Grams.from_two_u128 1 0 = .ok x) := by
  have h16 := claim_C10_boundary.2.2.2
  obtain ⟨hchk, hfrom, hwrite⟩ := claim_C10_boundary.1 ((2 : Int) ^ 127) h16
  refine ⟨hchk, hfrom, hwrite, ?_, ?_⟩
  · exact claim_C10_boundary.2.2.1 5 (by decide)
  · intro hx
    exact one_ne_zero ((claim_C10_boundary.2.1 1 0 (by decide)).mp hx)
end TonTypes
